import Mathlib

/-!
Verification development for the File_Watcher repository.

The repository watches directories for files whose names match flexible,
locale-tolerant patterns and copies matching files to destination
directories.  The matching conditions and the observer-activation logic
live in `src/main.py`, `src/test_conditions.py` and `src/ui/tray_app.py`.
The helpers `normalize_filename_for_comparison`, `create_flexible_condition`
and the copy/conflict handler live in `core/utils.py` and
`core/file_handler.py`, which are not part of the provided sources; those
are modelled from the specification and are marked as such below.

Strings are handled through their underlying `List Char`; all definitions
are executable so that concrete filenames can be evaluated by `decide`.
-/

namespace FileWatcher

/-- Boolean test that the list `p` is an initial segment of `l`. -/
def startsB : List Char → List Char → Bool
  | [], _ => true
  | _ :: _, [] => false
  | a :: as, b :: bs => a == b && startsB as bs

/-- Boolean test that the list `suf` is a final segment of `l`. -/
def endsB (suf l : List Char) : Bool :=
  startsB suf.reverse l.reverse

/-- Boolean substring test: `needle` occurs contiguously inside `hay`.
This models the Python expression `needle in hay` on strings. -/
def hasSub (needle : List Char) : List Char → Bool
  | [] => startsB needle []
  | c :: rest => startsB needle (c :: rest) || hasSub needle rest

theorem startsB_iff (p l : List Char) : startsB p l = true ↔ ∃ t, l = p ++ t := by
  induction p generalizing l with
  | nil => simp [startsB]
  | cons a as ih =>
    cases l with
    | nil => simp [startsB]
    | cons b bs =>
      simp only [startsB, Bool.and_eq_true, beq_iff_eq, ih, List.cons_append,
        List.cons.injEq]
      constructor
      · rintro ⟨rfl, t, rfl⟩; exact ⟨t, rfl, rfl⟩
      · rintro ⟨t, rfl, rfl⟩; exact ⟨rfl, t, rfl⟩

theorem endsB_iff (suf l : List Char) : endsB suf l = true ↔ ∃ t, l = t ++ suf := by
  unfold endsB
  rw [startsB_iff]
  constructor
  · rintro ⟨t, ht⟩
    refine ⟨t.reverse, ?_⟩
    have := congrArg List.reverse ht
    simpa [List.reverse_append] using this
  · rintro ⟨t, rfl⟩
    exact ⟨t.reverse, by simp [List.reverse_append]⟩

theorem hasSub_iff (needle hay : List Char) :
    hasSub needle hay = true ↔ ∃ l r, hay = l ++ needle ++ r := by
  induction hay with
  | nil =>
    cases needle with
    | nil => simp [hasSub, startsB]
    | cons c cs => simp [hasSub, startsB]
  | cons c rest ih =>
    simp only [hasSub, Bool.or_eq_true, startsB_iff, ih]
    constructor
    · rintro (⟨t, ht⟩ | ⟨l, r, rfl⟩)
      · exact ⟨[], t, by simpa using ht⟩
      · exact ⟨c :: l, r, by simp⟩
    · rintro ⟨l, r, hl⟩
      cases l with
      | nil => exact Or.inl ⟨r, by simpa using hl⟩
      | cons x xs =>
        right
        refine ⟨xs, r, ?_⟩
        have := hl
        simp only [List.cons_append, List.cons.injEq] at this
        exact this.2

/-- Association-list lookup returning the key itself when absent. -/
def look (table : List (Char × Char)) (c : Char) : Char :=
  match table.lookup c with
  | some d => d
  | none => c

theorem lookup_mem {α β : Type} [BEq α] [LawfulBEq α]
    (l : List (α × β)) (a : α) (b : β) (h : l.lookup a = some b) : (a, b) ∈ l := by
  induction l with
  | nil => simp [List.lookup] at h
  | cons p tl ih =>
    cases p with
    | mk k v =>
      rw [List.lookup] at h
      by_cases hab : (a == k) = true
      · rw [hab] at h
        have hk : a = k := beq_iff_eq.mp hab
        have hv : v = b := by simpa using h
        rw [hk, hv]
        exact List.mem_cons_self _ _
      · rw [Bool.eq_false_iff.mpr hab] at h
        exact List.mem_cons_of_mem _ (ih h)

/-- Case-folding table, modelled from the spec (section 4.1): locale-invariant
lower-casing of Latin and Cyrillic letters.  Unmapped characters pass
through unchanged. -/
def lowerPairs : List (Char × Char) :=
  [('A', 'a'), ('B', 'b'), ('C', 'c'), ('D', 'd'), ('E', 'e'), ('F', 'f'),
   ('G', 'g'), ('H', 'h'), ('I', 'i'), ('J', 'j'), ('K', 'k'), ('L', 'l'),
   ('M', 'm'), ('N', 'n'), ('O', 'o'), ('P', 'p'), ('Q', 'q'), ('R', 'r'),
   ('S', 's'), ('T', 't'), ('U', 'u'), ('V', 'v'), ('W', 'w'), ('X', 'x'),
   ('Y', 'y'), ('Z', 'z'),
   ('А', 'а'), ('Б', 'б'), ('В', 'в'), ('Г', 'г'), ('Д', 'д'), ('Е', 'е'),
   ('Ж', 'ж'), ('З', 'з'), ('И', 'и'), ('Й', 'й'), ('К', 'к'), ('Л', 'л'),
   ('М', 'м'), ('Н', 'н'), ('О', 'о'), ('П', 'п'), ('Р', 'р'), ('С', 'с'),
   ('Т', 'т'), ('У', 'у'), ('Ф', 'ф'), ('Х', 'х'), ('Ц', 'ц'), ('Ч', 'ч'),
   ('Ш', 'ш'), ('Щ', 'щ'), ('Ъ', 'ъ'), ('Ы', 'ы'), ('Ь', 'ь'), ('Э', 'э'),
   ('Ю', 'ю'), ('Я', 'я'),
   ('Ё', 'ё'), ('І', 'і'), ('Ї', 'ї'), ('Є', 'є'), ('Ґ', 'ґ'), ('Ј', 'ј')]

/-- Transliteration table, modelled from the spec (section 4.1): visually
confusable lower-case Cyrillic letters folded to their Latin equivalents,
applied consistently in one direction (always to Latin). -/
def translitPairs : List (Char × Char) :=
  [('а', 'a'), ('е', 'e'), ('і', 'i'), ('о', 'o'), ('р', 'p'), ('с', 'c'),
   ('у', 'y'), ('х', 'x'), ('ј', 'j')]

/-- Per-character normalization: case folding followed by transliteration
to Latin. -/
def foldChar (c : Char) : Char :=
  look translitPairs (look lowerPairs c)

/-- Lower-case outputs are never upper-case letters again, and
transliteration outputs (lower-case Latin letters) are unmapped by both
tables: this closure is what makes per-character normalization
idempotent. -/
theorem tables_closed :
    (lowerPairs.all fun p => (lowerPairs.lookup p.2).isNone) = true ∧
    (translitPairs.all fun p =>
       (lowerPairs.lookup p.2).isNone && (translitPairs.lookup p.2).isNone) = true := by
  constructor <;> decide

theorem look_fixed {table : List (Char × Char)} {c : Char}
    (h : table.lookup c = none) : look table c = c := by
  unfold look
  rw [h]

theorem output_fixed_lower {c d : Char} (h : lowerPairs.lookup c = some d) :
    lowerPairs.lookup d = none := by
  have hm : (c, d) ∈ lowerPairs := lookup_mem _ _ _ h
  have hall := tables_closed.1
  rw [List.all_eq_true] at hall
  have := hall _ hm
  simpa only [Option.isNone_iff_eq_none] using this

theorem output_fixed_translit {c d : Char} (h : translitPairs.lookup c = some d) :
    lowerPairs.lookup d = none ∧ translitPairs.lookup d = none := by
  have hm : (c, d) ∈ translitPairs := lookup_mem _ _ _ h
  have hall := tables_closed.2
  rw [List.all_eq_true] at hall
  have := hall _ hm
  simp only [Bool.and_eq_true, Option.isNone_iff_eq_none] at this
  exact this

theorem foldChar_idem (c : Char) : foldChar (foldChar c) = foldChar c := by
  unfold foldChar
  cases h1 : lowerPairs.lookup c with
  | none =>
    rw [look_fixed h1]
    cases h2 : translitPairs.lookup c with
    | none =>
      rw [look_fixed h2, look_fixed h1, look_fixed h2]
    | some d =>
      have hd := output_fixed_translit h2
      unfold look
      rw [h2, hd.1, hd.2]
  | some c1 =>
    have hc1 : lowerPairs.lookup c1 = none := output_fixed_lower h1
    have hlc : look lowerPairs c = c1 := by unfold look; rw [h1]
    rw [hlc]
    cases h2 : translitPairs.lookup c1 with
    | none =>
      rw [look_fixed h2, look_fixed hc1, look_fixed h2]
    | some d =>
      have hd := output_fixed_translit h2
      unfold look
      rw [h2, hd.1, hd.2]

/-- Collapse of runs of spaces to a single space, modelled from the spec
(section 4.1): double spaces produced by export tools are normalized. -/
def squeeze : List Char → List Char
  | [] => []
  | [a] => [a]
  | a :: b :: rest =>
    if a == ' ' && b == ' ' then squeeze (b :: rest)
    else a :: squeeze (b :: rest)

/-- The list has no two adjacent spaces. -/
def noDouble : List Char → Bool
  | [] => true
  | [_] => true
  | a :: b :: rest => !(a == ' ' && b == ' ') && noDouble (b :: rest)

theorem squeeze_cons (l : List Char) (a : Char) :
    ∃ t, squeeze (a :: l) = a :: t := by
  induction l generalizing a with
  | nil => exact ⟨[], rfl⟩
  | cons b rest ih =>
    by_cases h : (a == ' ' && b == ' ') = true
    · obtain ⟨t, ht⟩ := ih b
      have hab : a = b := by
        simp only [Bool.and_eq_true, beq_iff_eq] at h
        rw [h.1, h.2]
      refine ⟨t, ?_⟩
      rw [squeeze, if_pos h, ht, hab]
    · exact ⟨squeeze (b :: rest), by rw [squeeze, if_neg h]⟩

theorem squeeze_noDouble : ∀ l : List Char, noDouble (squeeze l) = true
  | [] => rfl
  | [_] => rfl
  | a :: b :: rest => by
    by_cases h : (a == ' ' && b == ' ') = true
    · rw [squeeze, if_pos h]
      exact squeeze_noDouble (b :: rest)
    · rw [squeeze, if_neg h]
      obtain ⟨t, ht⟩ := squeeze_cons rest b
      rw [ht, noDouble]
      have h2 : noDouble (b :: t) = true := by
        rw [← ht]; exact squeeze_noDouble (b :: rest)
      rw [h2, Bool.and_true, Bool.not_eq_true']
      exact Bool.eq_false_iff.mpr h

theorem squeeze_id_of_noDouble : ∀ l : List Char, noDouble l = true → squeeze l = l
  | [], _ => rfl
  | [_], _ => rfl
  | a :: b :: rest, h => by
    rw [noDouble] at h
    simp only [Bool.and_eq_true, Bool.not_eq_true'] at h
    rw [squeeze, if_neg (by rw [h.1]; exact Bool.false_ne_true)]
    rw [squeeze_id_of_noDouble (b :: rest) h.2]

theorem mem_squeeze : ∀ (l : List Char) (c : Char), c ∈ squeeze l → c ∈ l
  | [], _, h => h
  | [_], _, h => h
  | a :: b :: rest, c, h => by
    by_cases hs : (a == ' ' && b == ' ') = true
    · rw [squeeze, if_pos hs] at h
      exact List.mem_cons_of_mem a (mem_squeeze (b :: rest) c h)
    · rw [squeeze, if_neg hs] at h
      rcases List.mem_cons.mp h with h1 | h2
      · exact h1 ▸ List.mem_cons_self a _
      · exact List.mem_cons_of_mem a (mem_squeeze (b :: rest) c h2)

theorem noDouble_append_left : ∀ l1 l2 : List Char,
    noDouble (l1 ++ l2) = true → noDouble l1 = true
  | [], _, _ => rfl
  | [_], _, _ => rfl
  | a :: b :: rest, l2, h => by
    have h' : noDouble (a :: b :: (rest ++ l2)) = true := h
    rw [noDouble] at h'
    simp only [Bool.and_eq_true] at h'
    rw [noDouble]
    simp only [Bool.and_eq_true]
    exact ⟨h'.1, noDouble_append_left (b :: rest) l2 h'.2⟩

/-- Strip trailing underscores, modelled from the spec (section 4.1). -/
def dropTrail (l : List Char) : List Char :=
  (l.reverse.dropWhile (fun c => c == '_')).reverse

theorem dropWhile_idem (p : Char → Bool) :
    ∀ l : List Char, List.dropWhile p (List.dropWhile p l) = List.dropWhile p l
  | [] => rfl
  | c :: rest => by
    by_cases h : p c = true
    · rw [List.dropWhile_cons, if_pos h]
      exact dropWhile_idem p rest
    · rw [List.dropWhile_cons, if_neg h, List.dropWhile_cons, if_neg h]

theorem dropTrail_idem (l : List Char) : dropTrail (dropTrail l) = dropTrail l := by
  unfold dropTrail
  rw [List.reverse_reverse, dropWhile_idem]

theorem dropTrail_decomp (l : List Char) : ∃ t, l = dropTrail l ++ t := by
  refine ⟨(l.reverse.takeWhile (fun c => c == '_')).reverse, ?_⟩
  unfold dropTrail
  rw [← List.reverse_append, List.takeWhile_append_dropWhile, List.reverse_reverse]

theorem mem_dropTrail (l : List Char) (c : Char) (h : c ∈ dropTrail l) : c ∈ l := by
  obtain ⟨t, ht⟩ := dropTrail_decomp l
  rw [ht]
  exact List.mem_append_left t h

/-- Normalization of the character list of a filename: per-character case
folding and transliteration, then whitespace and trailing-underscore
cleanup. -/
def normChars (l : List Char) : List Char :=
  dropTrail (squeeze (l.map foldChar))

theorem map_foldChar_fixed (l : List Char) (h : ∀ c ∈ l, foldChar c = c) :
    l.map foldChar = l := by
  induction l with
  | nil => rfl
  | cons c rest ih =>
    rw [List.map_cons, h c (List.mem_cons_self c rest),
      ih fun x hx => h x (List.mem_cons_of_mem c hx)]

theorem normChars_idem (l : List Char) : normChars (normChars l) = normChars l := by
  unfold normChars
  set y := l.map foldChar with hy
  set z := squeeze y with hz
  set w := dropTrail z with hw
  have h1 : w.map foldChar = w := by
    apply map_foldChar_fixed
    intro c hc
    have hcz : c ∈ z := mem_dropTrail z c hc
    have hcy : c ∈ y := mem_squeeze y c hcz
    rw [hy] at hcy
    obtain ⟨a, _, rfl⟩ := List.mem_map.mp hcy
    exact foldChar_idem a
  have h2 : squeeze w = w := by
    apply squeeze_id_of_noDouble
    have hnz : noDouble z = true := by rw [hz]; exact squeeze_noDouble y
    obtain ⟨t, ht⟩ := dropTrail_decomp z
    rw [ht] at hnz
    exact noDouble_append_left w t hnz
  rw [h1, h2, hw, dropTrail_idem]

/-- Modelled from the spec: `core/utils.py` is not part of the provided
sources.  Per section 4.1 the normalizer lower-cases with a
locale-invariant fold, folds visually-confusable Cyrillic letters to their
Latin equivalents, and cleans up whitespace and trailing underscores;
unmapped characters pass through unchanged and no input raises. -/
def normalize_filename_for_comparison (s : String) : String :=
  String.mk (normChars s.data)

theorem normalize_data (s : String) :
    (normalize_filename_for_comparison s).data = normChars s.data := rfl

/-- Case folding of a single character, used for case-insensitive string
comparison. -/
def toLowerChar (c : Char) : Char := look lowerPairs c

/-- The 01X condition from `src/test_conditions.py` line 56: the normalized
name starts with "01x" and the raw filename ends with ".xlsx" (a plain,
case-sensitive `str.endswith`). -/
def cond_01x (name : String) : Bool :=
  startsB "01x".data (normalize_filename_for_comparison name).data &&
  endsB ".xlsx".data name.data

/-- The claim's reading of the condition, following the spec's words
(section 4.2): normalized name starts with the given stem and the raw
filename ends with the required suffix compared case-insensitively.  This
definition exists only to be compared with `cond_01x`. -/
def cond_01x_claim (stem suf name : String) : Bool :=
  startsB stem.data (normalize_filename_for_comparison name).data &&
  endsB (suf.data.map toLowerChar) (name.data.map toLowerChar)

/-- The inner substring test of the day-gated condition from
`src/test_conditions.py` lines 67-68. -/
def zalishki_inner (name : String) : Bool :=
  hasSub "залишки на рах вкл".data (normalize_filename_for_comparison name).data ||
  hasSub "zalishki na rax vkl".data (normalize_filename_for_comparison name).data

/-- The day-gated condition from `src/test_conditions.py` lines 65-69:
`datetime.now().weekday() == 4 and <substring test>`.  The weekday of the
evaluation instant is passed explicitly. -/
def zalishki_friday (weekday : Nat) (name : String) : Bool :=
  weekday == 4 && zalishki_inner name

/-- Python runtime values relevant to the diagnostic condition: `None`
(the value of a `print` call) and booleans. -/
inductive PyVal where
  | vnone : PyVal
  | vbool : Bool → PyVal
deriving DecidableEq

/-- Python truthiness of the modelled values: `None` is falsy. -/
def truthy : PyVal → Bool
  | .vnone => false
  | .vbool b => b

/-- Python `a or b`: the first operand if truthy, otherwise the second. -/
def pyOr (a b : PyVal) : PyVal :=
  if truthy a then a else b

/-- The pure substring test wrapped by the diagnostic condition of
`src/test_conditions.py` lines 73-79. -/
def aktivi_pure (name : String) : Bool :=
  hasSub "активи".data (normalize_filename_for_comparison name).data ||
  hasSub "aktivi".data (normalize_filename_for_comparison name).data

/-- The diagnostic message printed by the condition (its exact text does
not influence the match result). -/
def aktivi_message (name : String) : String :=
  "Проверка активи для " ++ name ++ ", нормализовано: " ++
    normalize_filename_for_comparison name

/-- Python `print`: appends the message to the output stream and evaluates
to `None`. -/
def py_print (msg : String) (out : List String) : List String × PyVal :=
  (out ++ [msg], PyVal.vnone)

/-- The historical diagnostic condition for активи,
`src/test_conditions.py` lines 73-79: `print(...) or any(...)`, modelled
with its output stream made explicit. -/
def aktivi_condition (name : String) (out : List String) : List String × PyVal :=
  let r := py_print (aktivi_message name) out
  (r.1, pyOr r.2 (PyVal.vbool (aktivi_pure name)))

/-- Rule matching from `src/test_conditions.py` line 38: a file matches
iff any condition of the rule evaluates true on the normalized name. -/
def rule_matches (conds : List (String → Bool)) (filename : String) : Bool :=
  conds.any fun cond => cond (normalize_filename_for_comparison filename)

/-- Modelled from the spec: `create_flexible_condition` lives in
`core/utils.py`, which is not part of the provided sources.  Per section
4.2 a flexible condition is true iff any alias of its set occurs in the
normalized name as a substring. -/
def create_flexible_condition (aliases : List String) : String → Bool :=
  fun name =>
    aliases.any fun a => hasSub a.data (normalize_filename_for_comparison name).data

/-- C1 counterexample: on the raw filename 01X_Баланс.XLSX (upper-case
extension) the normalized name starts with 01x and the raw name ends with
.xlsx under case-insensitive comparison, so the claim says the condition is
true; the code compares the suffix case-sensitively and evaluates false. -/
theorem C1_counterexample :
    cond_01x "01X_Баланс.XLSX" = false ∧
    cond_01x_claim "01x" ".xlsx" "01X_Баланс.XLSX" = true := by
  constructor <;> decide

/-- C1 amended: the 01X condition is true iff the normalized name starts
with 01x and the raw filename ends with .xlsx compared case-sensitively
(an exact `str.endswith`, not a case-insensitive one). -/
theorem C1_amended_suffix_case_sensitive (name : String) :
    cond_01x name = true ↔
      ((∃ t, (normalize_filename_for_comparison name).data = "01x".data ++ t) ∧
       (∃ t, name.data = t ++ ".xlsx".data)) := by
  unfold cond_01x
  rw [Bool.and_eq_true, startsB_iff, endsB_iff]

/-- C1 scenario checks from the spec, which the code does satisfy: the
lower-case .xlsx file matches and the .xls file does not. -/
theorem C1_scenario :
    cond_01x "01X_Баланс.xlsx" = true ∧ cond_01x "01X_Баланс.xls" = false := by
  constructor <;> decide

/-- C2: for every filename and every evaluation instant, the day-gated
залишки condition is false whenever the weekday is not Friday (index 4),
and on a Friday it equals the inner substring test. -/
theorem C2_day_gated_friday (weekday : Nat) (name : String) :
    (weekday ≠ 4 → zalishki_friday weekday name = false) ∧
    (weekday = 4 → zalishki_friday weekday name = zalishki_inner name) := by
  constructor
  · intro h
    unfold zalishki_friday
    have hw : (weekday == 4) = false := by simpa using h
    rw [hw, Bool.false_and]
  · intro h
    subst h
    unfold zalishki_friday
    rw [show ((4 : Nat) == 4) = true from rfl, Bool.true_and]

/-- C2 witness at a concrete non-Friday and Friday. -/
theorem C2_day_gated_friday_witness :
    ((2 : Nat) ≠ 4 ∧ zalishki_friday 2 "Залишки на рах вкл 0610.xlsx" = false) ∧
    ((4 : Nat) = 4 ∧ zalishki_friday 4 "Залишки на рах вкл 0610.xlsx" =
      zalishki_inner "Залишки на рах вкл 0610.xlsx") :=
  ⟨⟨by decide, (C2_day_gated_friday 2 "Залишки на рах вкл 0610.xlsx").1 (by decide)⟩,
   ⟨rfl, (C2_day_gated_friday 4 "Залишки на рах вкл 0610.xlsx").2 rfl⟩⟩

/-- C3: rule matching has OR-semantics — a file matches iff at least one
condition evaluates true on the normalized name — and is monotone:
inserting an additional condition anywhere in the list never makes a
matching file stop matching. -/
theorem C3_or_semantics_monotone (conds1 conds2 : List (String → Bool))
    (extra : String → Bool) (filename : String) :
    (rule_matches (conds1 ++ conds2) filename = true ↔
      ∃ cond ∈ conds1 ++ conds2,
        cond (normalize_filename_for_comparison filename) = true) ∧
    (rule_matches (conds1 ++ conds2) filename = true →
      rule_matches (conds1 ++ extra :: conds2) filename = true) := by
  constructor
  · exact List.any_eq_true
  · intro h
    unfold rule_matches at h ⊢
    simp only [List.any_append, List.any_cons, Bool.or_eq_true] at h ⊢
    tauto

/-- C3 witness: the C5 flexible condition matches C5_forma.xlsx, and the
match survives inserting an always-false extra condition. -/
theorem C3_or_semantics_monotone_witness :
    (∃ cond ∈ [create_flexible_condition ["c5", "с5"]] ++ ([] : List (String → Bool)),
       cond (normalize_filename_for_comparison "C5_forma.xlsx") = true) ∧
    rule_matches ([create_flexible_condition ["c5", "с5"]] ++
      (fun _ => false) :: ([] : List (String → Bool))) "C5_forma.xlsx" = true :=
  ⟨(C3_or_semantics_monotone [create_flexible_condition ["c5", "с5"]] []
      (fun _ => false) "C5_forma.xlsx").1.mp (by decide),
   (C3_or_semantics_monotone [create_flexible_condition ["c5", "с5"]] []
      (fun _ => false) "C5_forma.xlsx").2 (by decide)⟩

/-- C6 counterexample: normalization is idempotent, but the conditions do
not all give the same result on a raw filename and on its normalized form:
the 01X condition reads the raw name for its suffix check, so on
01X_Баланс.XLSX it is false on the raw name and true on the normalized
name. -/
theorem C6_counterexample :
    cond_01x "01X_Баланс.XLSX" = false ∧
    cond_01x (normalize_filename_for_comparison "01X_Баланс.XLSX") = true := by
  constructor <;> decide

/-- C6 amended: normalization is idempotent, and every condition that
depends on its argument only through the normalized name — the flexible
conditions in particular — gives the same result on a raw filename and on
its normalized form; the 01X condition, which also reads the raw name, is
exempt. -/
theorem C6_amended_idempotent :
    (∀ s : String,
       normalize_filename_for_comparison (normalize_filename_for_comparison s) =
         normalize_filename_for_comparison s) ∧
    (∀ (f : String → Bool) (name : String),
       f (normalize_filename_for_comparison (normalize_filename_for_comparison name)) =
         f (normalize_filename_for_comparison name)) ∧
    (∀ (aliases : List String) (name : String),
       create_flexible_condition aliases (normalize_filename_for_comparison name) =
         create_flexible_condition aliases name) := by
  have hidem : ∀ s : String,
      normalize_filename_for_comparison (normalize_filename_for_comparison s) =
        normalize_filename_for_comparison s := by
    intro s
    unfold normalize_filename_for_comparison
    exact congrArg String.mk (normChars_idem s.data)
  refine ⟨hidem, fun f name => congrArg f (hidem name), fun aliases name => ?_⟩
  unfold create_flexible_condition
  rw [hidem name]

/-- A watch configuration as consumed by `create_observers` in
`src/main.py`: the source directory, the destination directory, the
condition list and an optional description.  `create_observers` reads only
the first, third and fourth fields. -/
structure WatchConfig where
  watch_dir : String
  dest_dir : String
  conditions : List (String → Bool)
  description : Option String

/-- An activated filesystem observer (the `watchdog` collaborator is
opaque; only its identity and scheduled path matter here). -/
structure Observer where
  path : String
  started : Bool
deriving DecidableEq

/-- One iteration of the loop of `create_observers` (`src/main.py` lines
143-165): the source directory is checked for existence and the
configuration is skipped when it is missing; an exception while creating
or starting the observer is caught and the configuration is skipped.
`fsExists` is the state of the filesystem and `start` the fallible
observer construction. -/
def activateOne (fsExists : String → Bool)
    (start : WatchConfig → Except String Observer) (cfg : WatchConfig) :
    Option (Observer × WatchConfig) :=
  if fsExists cfg.watch_dir then
    match start cfg with
    | Except.ok obs => some (obs, cfg)
    | Except.error _ => none
  else none

/-- `create_observers` from `src/main.py` lines 133-167: activates each
configuration independently and returns the pairs that succeeded. -/
def create_observers (fsExists : String → Bool)
    (start : WatchConfig → Except String Observer)
    (configs : List WatchConfig) : List (Observer × WatchConfig) :=
  configs.filterMap (activateOne fsExists start)

/-- `validate_configuration` from `src/main.py` lines 98-131: path
problems reported by `validate_paths` only produce a warning and the
function still returns true; it returns false only when an exception
escapes the check itself. -/
def validate_configuration (allPathsValid : Bool) (exceptionRaised : Bool) : Bool :=
  if exceptionRaised then false else true

/-- A configuration whose source directory exists but whose destination
directory does not, used as the concrete input of the C4 counterexample. -/
def demo_config : WatchConfig :=
  { watch_dir := "C:/watch", dest_dir := "C:/dest", conditions := [],
    description := none }

/-- Filesystem in which only the source directory of `demo_config`
exists. -/
def demo_fs : String → Bool := fun p => p == "C:/watch"

/-- Filesystem in which both directories of `demo_config` exist. -/
def demo_fs2 : String → Bool := fun p => p == "C:/watch" || p == "C:/dest"

/-- Observer construction that always succeeds. -/
def demo_start : WatchConfig → Except String Observer :=
  fun cfg => Except.ok { path := cfg.watch_dir, started := true }

theorem activateOne_some {fsExists : String → Bool}
    {start : WatchConfig → Except String Observer} {cfg : WatchConfig}
    {pr : Observer × WatchConfig} (h : activateOne fsExists start cfg = some pr) :
    fsExists pr.2.watch_dir = true := by
  unfold activateOne at h
  by_cases hf : fsExists cfg.watch_dir = true
  · rw [if_pos hf] at h
    cases hs : start cfg with
    | ok obs =>
      rw [hs] at h
      have : (obs, cfg) = pr := by simpa using h
      rw [← this]
      exact hf
    | error e => rw [hs] at h; exact absurd h (by simp)
  · rw [if_neg hf] at h
    exact absurd h (by simp)

theorem activateOne_none {fsExists : String → Bool}
    {start : WatchConfig → Except String Observer} {cfg : WatchConfig}
    (h : fsExists cfg.watch_dir = false ∨ ∃ e, start cfg = Except.error e) :
    activateOne fsExists start cfg = none := by
  unfold activateOne
  rcases h with h | ⟨e, he⟩
  · rw [if_neg (by rw [h]; exact Bool.false_ne_true)]
  · by_cases hf : fsExists cfg.watch_dir = true
    · rw [if_pos hf, he]
    · rw [if_neg hf]

theorem activateOne_fs_congr {fs1 fs2 : String → Bool}
    {start : WatchConfig → Except String Observer} {cfg : WatchConfig}
    (h : fs1 cfg.watch_dir = fs2 cfg.watch_dir) :
    activateOne fs1 start cfg = activateOne fs2 start cfg := by
  unfold activateOne
  rw [h]

/-- C4 counterexample: the destination directory of `demo_config` does not
exist, the configuration check still succeeds, and `create_observers`
still activates an observer for the rule — a rule with a missing
destination is not excluded from the active observer set. -/
theorem C4_counterexample :
    demo_fs demo_config.dest_dir = false ∧
    validate_configuration false false = true ∧
    (create_observers demo_fs demo_start [demo_config]).length = 1 := by
  refine ⟨by decide, rfl, by decide⟩

/-- C4 amended: activation checks only the source directory — the result
of `create_observers` is unchanged by any change to the filesystem outside
the source directories, so destination existence is irrelevant — and an
observer is created for a configuration iff its source directory exists
and observer construction raises no exception; path-validation problems
only produce a warning and never exclude a rule. -/
theorem C4_amended_source_only (fs1 fs2 : String → Bool)
    (start : WatchConfig → Except String Observer)
    (configs : List WatchConfig) (cfg : WatchConfig) :
    ((∀ c ∈ configs, fs1 c.watch_dir = fs2 c.watch_dir) →
      create_observers fs1 start configs = create_observers fs2 start configs) ∧
    (create_observers fs1 start [cfg] ≠ [] ↔
      fs1 cfg.watch_dir = true ∧ ∃ obs, start cfg = Except.ok obs) ∧
    (∀ v : Bool, validate_configuration v false = true) := by
  refine ⟨?_, ?_, fun _ => rfl⟩
  · intro h
    unfold create_observers
    induction configs with
    | nil => rfl
    | cons c rest ih =>
      rw [List.filterMap_cons, List.filterMap_cons,
        activateOne_fs_congr (h c (List.mem_cons_self c rest)),
        ih fun x hx => h x (List.mem_cons_of_mem c hx)]
  · unfold create_observers activateOne
    by_cases hf : fs1 cfg.watch_dir = true
    · cases hs : start cfg with
      | ok obs => simp [List.filterMap, hf, hs]
      | error e => simp [List.filterMap, hf, hs]
    · have hf' : fs1 cfg.watch_dir = false := Bool.eq_false_iff.mpr hf
      simp [List.filterMap, hf']

/-- C4 witness: making the destination directory exist changes nothing in
the activation result. -/
theorem C4_amended_source_only_witness :
    (∀ c ∈ [demo_config], demo_fs c.watch_dir = demo_fs2 c.watch_dir) ∧
    create_observers demo_fs demo_start [demo_config] =
      create_observers demo_fs2 demo_start [demo_config] :=
  ⟨by decide,
   (C4_amended_source_only demo_fs demo_fs2 demo_start [demo_config]
      demo_config).1 (by decide)⟩

/-- C5: every activated observer belongs to a configuration whose source
directory exists; a configuration whose source directory is missing or
whose activation raises contributes nothing and does not prevent the
remaining configurations from being activated; and at most one observer is
created per configuration. -/
theorem C5_create_observers (fs : String → Bool)
    (start : WatchConfig → Except String Observer)
    (l1 l2 : List WatchConfig) (c : WatchConfig) :
    (∀ pr ∈ create_observers fs start (l1 ++ c :: l2), fs pr.2.watch_dir = true) ∧
    ((fs c.watch_dir = false ∨ ∃ e, start c = Except.error e) →
      create_observers fs start (l1 ++ c :: l2) =
        create_observers fs start l1 ++ create_observers fs start l2) ∧
    (create_observers fs start (l1 ++ c :: l2)).length ≤ (l1 ++ c :: l2).length := by
  refine ⟨?_, ?_, ?_⟩
  · intro pr hpr
    obtain ⟨cfg, _, hact⟩ := List.mem_filterMap.mp hpr
    exact activateOne_some hact
  · intro h
    unfold create_observers
    rw [List.filterMap_append, List.filterMap_cons, activateOne_none h]
  · exact List.length_filterMap_le _ _

/-- Configuration with a second existing source directory. -/
def demo_config2 : WatchConfig :=
  { watch_dir := "C:/watch2", dest_dir := "C:/dest2", conditions := [],
    description := some "second" }

/-- Configuration whose source directory does not exist. -/
def demo_bad : WatchConfig :=
  { watch_dir := "C:/missing", dest_dir := "C:/dest", conditions := [],
    description := some "bad" }

/-- Filesystem in which both demo source directories exist but
`demo_bad`'s does not. -/
def demo_fs3 : String → Bool := fun p => p == "C:/watch" || p == "C:/watch2"

/-- C5 witness: dropping the configuration with the missing source leaves
the observers of the surrounding configurations intact. -/
theorem C5_create_observers_witness :
    demo_fs3 demo_bad.watch_dir = false ∧
    create_observers demo_fs3 demo_start ([demo_config] ++ demo_bad :: [demo_config2]) =
      create_observers demo_fs3 demo_start [demo_config] ++
        create_observers demo_fs3 demo_start [demo_config2] :=
  ⟨by decide,
   (C5_create_observers demo_fs3 demo_start [demo_config] [demo_config2]
      demo_bad).2.1 (Or.inl (by decide))⟩

/-- Outcome of executing a block of Python code: an executed `return`, an
uncaught exception, or falling off the end of the block. -/
inductive PyOutcome where
  | returns : Int → PyOutcome
  | raises : String → PyOutcome
  | falls : PyOutcome
deriving DecidableEq

/-- Python semantics of `try ... finally`: a `return` (or `raise`)
executed inside the `finally` block replaces the outcome of the body,
discarding pending return values and pending exceptions; a `finally` block
without control flow leaves the body's outcome in place. -/
def finallyOverride (body fin : PyOutcome) : PyOutcome :=
  match fin with
  | .falls => body
  | f => f

/-- The `try` body of `main` in `src/main.py` lines 247-310 together with
its `except` clauses: `return 1` on a failed configuration check, `return
1` when no observer starts, otherwise the outcome of the UI/wait loop,
with `KeyboardInterrupt` caught and logged, any `Exception` subclass
caught and turned into `return 1`, and any other raised exception
propagating.  `isExc` tells which exception names are `Exception`
subclasses. -/
def main_try_body (configOk : Bool) (observerCount : Nat)
    (loop : PyOutcome) (isExc : String → Bool) : PyOutcome :=
  if configOk = false then .returns 1
  else if observerCount = 0 then .returns 1
  else match loop with
    | .raises e =>
      if e == "KeyboardInterrupt" then .falls
      else if isExc e then .returns 1
      else .raises e
    | o => o

/-- The whole of `main` in `src/main.py` lines 238-317: the `try` body
wrapped by a `finally` block whose last statement is `return 0`. -/
def main (configOk : Bool) (observerCount : Nat)
    (loop : PyOutcome) (isExc : String → Bool) : PyOutcome :=
  finallyOverride (main_try_body configOk observerCount loop isExc) (.returns 0)

/-- C9: `main` returns 0 on every execution path — the `return 0` in the
`finally` block runs last and overrides every earlier return value and
pending exception — even though the body executes `return 1` after a
failed configuration check or when zero observers start. -/
theorem C9_main_returns_zero (configOk : Bool) (observerCount : Nat)
    (loop : PyOutcome) (isExc : String → Bool) :
    main configOk observerCount loop isExc = PyOutcome.returns 0 ∧
    (configOk = false →
      main_try_body configOk observerCount loop isExc = PyOutcome.returns 1) ∧
    (configOk = true → observerCount = 0 →
      main_try_body configOk observerCount loop isExc = PyOutcome.returns 1) ∧
    (∀ e, main configOk observerCount (PyOutcome.raises e) isExc =
      PyOutcome.returns 0) := by
  refine ⟨rfl, ?_, ?_, fun _ => rfl⟩
  · intro h
    unfold main_try_body
    rw [if_pos h]
  · intro hc h0
    unfold main_try_body
    rw [if_neg (by rw [hc]; decide), if_pos h0]

/-- C9 witness: the failed-configuration path yields body outcome
`return 1` yet process outcome `return 0`. -/
theorem C9_main_returns_zero_witness :
    main false 0 PyOutcome.falls (fun _ => true) = PyOutcome.returns 0 ∧
    main_try_body false 0 PyOutcome.falls (fun _ => true) = PyOutcome.returns 1 :=
  ⟨(C9_main_returns_zero false 0 PyOutcome.falls (fun _ => true)).1,
   (C9_main_returns_zero false 0 PyOutcome.falls (fun _ => true)).2.1 rfl⟩

/-- The mutable flags of the running application: the module-global
`RUNNING` of `src/main.py` line 55, the separate `config.settings.RUNNING`
flag, the `TrayApp.running` attribute, whether the tray icon is active,
and whether the shutdown notification was shown. -/
structure AppState where
  main_running : Bool
  settings_running : Bool
  tray_running : Bool
  icon_active : Bool
  notified_shutdown : Bool
deriving DecidableEq

/-- `TrayApp.quit_app` from `src/ui/tray_app.py` lines 211-236: sets
`config.settings.RUNNING` and the instance's own `running` attribute to
false, stops the tray icon and shows the shutdown notification. -/
def quit_app (s : AppState) : AppState :=
  { s with settings_running := false, tray_running := false,
           icon_active := false, notified_shutdown := true }

/-- The guard of the `while RUNNING` loops in `src/main.py` lines 182 and
300, which read the main module's global. -/
def background_loop_guard (s : AppState) : Bool := s.main_running

/-- C10: `quit_app` never writes the main module's `RUNNING` global — it
is unchanged, the background/console loop guard is unchanged, and a state
in which `RUNNING` is true still has it true after `quit_app`. -/
theorem C10_quit_app_frame (s : AppState) :
    (quit_app s).main_running = s.main_running ∧
    background_loop_guard (quit_app s) = background_loop_guard s ∧
    (s.main_running = true → (quit_app s).main_running = true) :=
  ⟨rfl, rfl, fun h => h⟩

/-- Application state before `quit_app` is invoked while everything is
running. -/
def demo_state : AppState :=
  { main_running := true, settings_running := true, tray_running := true,
    icon_active := true, notified_shutdown := false }

/-- C10 witness at a concrete running state. -/
theorem C10_quit_app_frame_witness :
    demo_state.main_running = true ∧ (quit_app demo_state).main_running = true :=
  ⟨rfl, (C10_quit_app_frame demo_state).2.2 rfl⟩

/-- C7: the historical diagnostic активи condition is boolean-equivalent
to the pure predicate it wraps — `print` evaluates to `None`, which is
falsy, so `print(...) or any(...)` has the value of the `any` — and its
only effect is appending one diagnostic line to the output stream. -/
theorem C7_print_or_equiv (name : String) (out : List String) :
    (aktivi_condition name out).2 = PyVal.vbool (aktivi_pure name) ∧
    (aktivi_condition name out).1 = out ++ [aktivi_message name] :=
  ⟨rfl, rfl⟩

/-- The destination path preserving the original filename. -/
def destTarget (destDir name : String) : String :=
  destDir ++ "/" ++ name

/-- A run of padding characters used to keep disambiguated names
distinct. -/
def padStr (k : Nat) : String :=
  String.mk (List.replicate k '_')

/-- The k-th disambiguated candidate path on a name conflict: the
timestamp `ts` plus `k` extra separator characters prepended to the
original filename.  Distinct counters give paths of distinct lengths. -/
def cand (destDir name ts : String) (k : Nat) : String :=
  destDir ++ "/" ++ ts ++ "_" ++ padStr k ++ name

/-- Scan for the first free candidate index, with explicit fuel. -/
def findFreeAux (fs : List (String × List Nat)) (mk : Nat → String) :
    Nat → Nat → Option Nat
  | 0, _ => none
  | fuel + 1, k =>
    if (fs.lookup (mk k)).isNone then some k
    else findFreeAux fs mk fuel (k + 1)

/-- Modelled from the spec: the copy/conflict handler lives in
`core/file_handler.py`, which is not part of the provided sources.  Per
sections 4.4 and 5, when the destination already contains a file of the
target name the copy does not overwrite: it retries with a
timestamp-derived disambiguating suffix until a free path is found.  The
filesystem is a finite association list from path to file bytes; writing
prepends a binding for a path that is checked to be free. -/
def copy_to_dest (fs : List (String × List Nat)) (content : List Nat)
    (destDir name ts : String) : List (String × List Nat) × Option String :=
  match fs.lookup (destTarget destDir name) with
  | none => ((destTarget destDir name, content) :: fs, some (destTarget destDir name))
  | some _ =>
    match findFreeAux fs (cand destDir name ts) (fs.length + 1) 0 with
    | some k => ((cand destDir name ts k, content) :: fs, some (cand destDir name ts k))
    | none => (fs, none)

theorem cand_length (destDir name ts : String) (k : Nat) :
    (cand destDir name ts k).length =
      destDir.length + 1 + ts.length + 1 + k + name.length := by
  unfold cand padStr
  have h1 : ("/" : String).length = 1 := rfl
  have h2 : ("_" : String).length = 1 := rfl
  have h3 : (String.mk (List.replicate k '_')).length = k := by
    rw [String.length_mk, List.length_replicate]
  rw [String.length_append, String.length_append, String.length_append,
    String.length_append, String.length_append, h1, h2, h3]

theorem cand_injective (destDir name ts : String) :
    Function.Injective (cand destDir name ts) := by
  intro k1 k2 h
  have := congrArg String.length h
  rw [cand_length, cand_length] at this
  omega

theorem cand_ne_destTarget (destDir name ts : String) (k : Nat) :
    cand destDir name ts k ≠ destTarget destDir name := by
  intro h
  have := congrArg String.length h
  rw [cand_length] at this
  unfold destTarget at this
  rw [String.length_append, String.length_append] at this
  have h1 : ("/" : String).length = 1 := rfl
  rw [h1] at this
  omega

theorem findFreeAux_free (fs : List (String × List Nat)) (mk : Nat → String) :
    ∀ fuel k0 k, findFreeAux fs mk fuel k0 = some k → fs.lookup (mk k) = none
  | 0, _, _, h => by simp [findFreeAux] at h
  | fuel + 1, k0, k, h => by
    rw [findFreeAux] at h
    by_cases hf : (fs.lookup (mk k0)).isNone = true
    · rw [if_pos hf] at h
      have hk : k0 = k := by simpa using h
      rw [← hk]
      exact Option.isNone_iff_eq_none.mp hf
    · rw [if_neg hf] at h
      exact findFreeAux_free fs mk fuel (k0 + 1) k h

theorem findFreeAux_complete (fs : List (String × List Nat)) (mk : Nat → String) :
    ∀ fuel k0, (∃ j, j < fuel ∧ fs.lookup (mk (k0 + j)) = none) →
      ∃ k, findFreeAux fs mk fuel k0 = some k
  | 0, _, h => absurd h (by rintro ⟨j, hj, _⟩; omega)
  | fuel + 1, k0, h => by
    rw [findFreeAux]
    by_cases hf : (fs.lookup (mk k0)).isNone = true
    · exact ⟨k0, if_pos hf⟩
    · rw [if_neg hf]
      obtain ⟨j, hj, hfree⟩ := h
      cases j with
      | zero =>
        exact absurd (Option.isNone_iff_eq_none.mpr (by simpa using hfree)) hf
      | succ j' =>
        apply findFreeAux_complete fs mk fuel (k0 + 1)
        exact ⟨j', by omega, by rw [show k0 + 1 + j' = k0 + (j' + 1) by omega]; exact hfree⟩

theorem exists_free_cand (fs : List (String × List Nat)) (destDir name ts : String) :
    ∃ j, j ≤ fs.length ∧ fs.lookup (cand destDir name ts j) = none := by
  by_contra hcon
  push_neg at hcon
  have hmem : ∀ j ∈ List.range (fs.length + 1),
      cand destDir name ts j ∈ fs.map Prod.fst := by
    intro j hj
    have hj' : j ≤ fs.length := by
      have := List.mem_range.mp hj
      omega
    cases hv : fs.lookup (cand destDir name ts j) with
    | none => exact absurd hv (hcon j hj')
    | some v =>
      exact List.mem_map.mpr ⟨_, lookup_mem fs _ v hv, rfl⟩
  have hnodup : ((List.range (fs.length + 1)).map (cand destDir name ts)).Nodup :=
    (List.nodup_range (fs.length + 1)).map (cand_injective destDir name ts)
  have hcard1 : ((List.range (fs.length + 1)).map (cand destDir name ts)).toFinset.card
      = fs.length + 1 := by
    rw [List.toFinset_card_of_nodup hnodup, List.length_map, List.length_range]
  have hsub : ((List.range (fs.length + 1)).map (cand destDir name ts)).toFinset ⊆
      (fs.map Prod.fst).toFinset := by
    intro x hx
    rw [List.mem_toFinset] at hx ⊢
    obtain ⟨j, hj, rfl⟩ := List.mem_map.mp hx
    exact hmem j hj
  have hcard2 : (fs.map Prod.fst).toFinset.card ≤ fs.length := by
    calc (fs.map Prod.fst).toFinset.card ≤ (fs.map Prod.fst).length :=
          (fs.map Prod.fst).toFinset_card_le
      _ = fs.length := List.length_map _ _
  have := Finset.card_le_card hsub
  omega

theorem lookup_cons_self (fs : List (String × List Nat)) (p : String) (v : List Nat) :
    ((p, v) :: fs).lookup p = some v := by
  rw [List.lookup]
  rw [show (p == p) = true by simp]

theorem lookup_cons_ne (fs : List (String × List Nat)) (p q : String) (v : List Nat)
    (h : q ≠ p) : ((p, v) :: fs).lookup q = fs.lookup q := by
  rw [List.lookup]
  rw [show (q == p) = false by simpa using h]

/-- C8: when the destination already contains a file of the target name,
the copy lands at a different, deterministically disambiguated path; the
pre-existing file of the target name keeps its exact bytes, and no file
present before the copy is overwritten. -/
theorem C8_no_overwrite (fs : List (String × List Nat)) (content old : List Nat)
    (destDir name ts : String)
    (h : fs.lookup (destTarget destDir name) = some old) :
    ∃ p, (copy_to_dest fs content destDir name ts).2 = some p ∧
      p ≠ destTarget destDir name ∧
      (copy_to_dest fs content destDir name ts).1.lookup (destTarget destDir name)
        = some old ∧
      (copy_to_dest fs content destDir name ts).1.lookup p = some content ∧
      ∀ q v, fs.lookup q = some v →
        (copy_to_dest fs content destDir name ts).1.lookup q = some v := by
  obtain ⟨j, hj, hfree⟩ := exists_free_cand fs destDir name ts
  obtain ⟨k, hk⟩ := findFreeAux_complete fs (cand destDir name ts) (fs.length + 1) 0
    ⟨j, by omega, by simpa using hfree⟩
  have hkfree : fs.lookup (cand destDir name ts k) = none :=
    findFreeAux_free fs (cand destDir name ts) (fs.length + 1) 0 k hk
  have hcopy : copy_to_dest fs content destDir name ts =
      ((cand destDir name ts k, content) :: fs, some (cand destDir name ts k)) := by
    unfold copy_to_dest
    rw [h, hk]
  refine ⟨cand destDir name ts k, ?_, cand_ne_destTarget destDir name ts k, ?_, ?_, ?_⟩
  · rw [hcopy]
  · rw [hcopy]
    rw [lookup_cons_ne fs _ _ content
      (Ne.symm (cand_ne_destTarget destDir name ts k))]
    exact h
  · rw [hcopy]
    exact lookup_cons_self fs _ content
  · intro q v hq
    rw [hcopy]
    by_cases hqc : q = cand destDir name ts k
    · rw [hqc] at hq
      rw [hkfree] at hq
      exact absurd hq (by simp)
    · rw [lookup_cons_ne fs _ q content hqc]
      exact hq

/-- A destination directory that already contains report.xlsx. -/
def demo_dest_fs : List (String × List Nat) := [("d/report.xlsx", [1, 2])]

/-- C8 witness: copying another report.xlsx with bytes [3] into the
occupied destination. -/
theorem C8_no_overwrite_witness :
    demo_dest_fs.lookup (destTarget "d" "report.xlsx") = some [1, 2] ∧
    ∃ p, (copy_to_dest demo_dest_fs [3] "d" "report.xlsx" "20250101").2 = some p ∧
      p ≠ destTarget "d" "report.xlsx" ∧
      (copy_to_dest demo_dest_fs [3] "d" "report.xlsx" "20250101").1.lookup
        (destTarget "d" "report.xlsx") = some [1, 2] ∧
      (copy_to_dest demo_dest_fs [3] "d" "report.xlsx" "20250101").1.lookup p
        = some [3] ∧
      ∀ q v, demo_dest_fs.lookup q = some v →
        (copy_to_dest demo_dest_fs [3] "d" "report.xlsx" "20250101").1.lookup q
          = some v :=
  ⟨by decide,
   C8_no_overwrite demo_dest_fs [3] [1, 2] "d" "report.xlsx" "20250101" (by decide)⟩

end FileWatcher
